import Mathlib

/-!
Shallow embedding of the resource-management core of the Playwright scraping
service (`server.js` / part_001): challenge detection, Cloudflare hardening
policy, the session store with LRU eviction and TTL sweep, the admission
semaphore, the challenge-resolution loop, the final readiness decision, and
the cleanup discipline of the `/solve` handler's finally block.
-/

namespace Scraper

/-- Test whether the first list is a leading segment of the second
(character-by-character), the building block of substring search. -/
def startsWithL : List Char → List Char → Bool
  | [], _ => true
  | _ :: _, [] => false
  | p :: ps, h :: hs => p == h && startsWithL ps hs

/-- Test whether `pat` occurs as a contiguous sublist of `hay`: the substring
semantics of an unanchored literal regex alternative such as `/(cloudflare)/`. -/
def strContainsSub (hay pat : List Char) : Bool :=
  match hay with
  | [] => pat.isEmpty
  | c :: t => startsWithL pat (c :: t) || strContainsSub t pat

/-- Lower-case a character list, modelling JavaScript `toLowerCase()` /
the `i` regex flag on the ASCII hostnames and markers involved. -/
def lowerL (l : List Char) : List Char := l.map Char.toLower

/-- The three alternatives of the hardening regex
`/(partsouq\.com|cloudflare|cf)/i` (part_001 line 122). -/
def cfMarkers : List (List Char) :=
  ["partsouq.com".toList, "cloudflare".toList, "cf".toList]

/-- Case-insensitive test of the hardening regex against a hostname
(part_001 lines 121-122: the hostname is lower-cased, then tested). -/
def hostnameCfMatch (h : String) : Bool :=
  cfMarkers.any (fun m => strContainsSub (lowerL h.toList) m)

/-- `needsCfHardening` (part_001 lines 118-126). The hostname argument is
`some h` when `new URL(url).hostname` parses and `none` when the constructor
throws (the `catch` branch returning `false`). -/
def needsCfHardening (hostname : Option String) (challengeMode : Bool) : Bool :=
  if challengeMode then true
  else
    match hostname with
    | some h => hostnameCfMatch h
    | none => false

/-- `effectiveBlockAssets` (part_001 line 518): `cfHardening ? false :
blockAssets`, where the request's `blockAssets` field defaults to `true`
when absent (destructuring default, line 484). -/
def effectiveBlockAssets (hostname : Option String) (challengeMode : Bool)
    (blockAssets : Option Bool) : Bool :=
  if needsCfHardening hostname challengeMode then false
  else blockAssets.getD true

/-- A browser cookie as far as the detectors observe it. -/
structure Cookie where
  name : String
  value : String
deriving DecidableEq

/-- Oracle for the fallible page primitives consumed by `pageChallenged`:
the result of `page.title()` and of the body-text evaluation, each either a
string or a thrown error (part_001 lines 141-144). -/
structure PageOracle where
  titleRes : Except String String
  bodyTextRes : Except String String

/-- Oracle for the fallible context primitive consumed by `hasCfClearance`:
the result of `context.cookies(...)` (part_001 line 131). -/
structure CtxOracle where
  cookiesRes : Except String (List Cookie)

/-- The four alternatives of the challenge-marker regex
`/just a moment|checking your browser|cloudflare|cf-browser-verification/i`
(part_001 line 145). -/
def challengeMarkers : List (List Char) :=
  ["just a moment".toList, "checking your browser".toList,
   "cloudflare".toList, "cf-browser-verification".toList]

/-- Case-insensitive test of the challenge-marker regex against a string. -/
def challengeRegexTest (s : String) : Bool :=
  challengeMarkers.any (fun m => strContainsSub (lowerL s.toList) m)

/-- `pageChallenged` (part_001 lines 139-149): each primitive carries a
`.catch(() => '')` fallback, and the whole body sits in a try/catch whose
catch returns `false`; the result type records that an uncaught error would
have been propagated to the caller. -/
def pageChallenged (po : PageOracle) : Except String Bool :=
  let t := match po.titleRes with
    | Except.ok s => s
    | Except.error _ => ""
  let b := match po.bodyTextRes with
    | Except.ok s => s
    | Except.error _ => ""
  Except.ok (challengeRegexTest (t ++ " " ++ b))

/-- `hasCfClearance` (part_001 lines 129-136): enumerate the context's
cookies for the hostname and look for `cf_clearance`; the surrounding
try/catch turns any enumeration failure into `false`. -/
def hasCfClearance (co : CtxOracle) : Except String Bool :=
  match co.cookiesRes with
  | Except.ok cs => Except.ok (cs.any (fun c => c.name == "cf_clearance"))
  | Except.error _ => Except.ok false

/-- One entry of the session map: `{ context, createdAt, lastUsedAt }`
(part_001 line 71), with the opaque context handle elided. Times are
millisecond clock readings. -/
structure SessionEntry where
  lastUsedAt : Int
  createdAt : Int
deriving DecidableEq

/-- The session map, in JavaScript `Map` insertion order with unique keys. -/
abbrev Store := List (String × SessionEntry)

/-- `Map.delete` on a unique-key association list. -/
def mapDelete (store : Store) (k : String) : Store :=
  store.filter (fun p => decide (p.1 ≠ k))

/-- The scan inside `evictLRUSession` (part_001 lines 181-189): starting from
`oldestTime = Date.now()` and `oldestId = null`, replace the candidate
whenever an entry's `lastUsedAt` is strictly smaller than the best so far. -/
def scanOldest (now : Int) (store : Store) : Option String × Int :=
  store.foldl
    (fun acc p => if p.2.lastUsedAt < acc.2 then (some p.1, p.2.lastUsedAt) else acc)
    (none, now)

/-- `evictLRUSession` (part_001 lines 178-203): empty store is a no-op;
otherwise delete the scanned candidate (closing its context) when one was
found, and do nothing when `oldestId` stayed null. Returns the new store and
the key whose context was closed, if any. -/
def evictLRUSession (now : Int) (store : Store) : Store × Option String :=
  if store.isEmpty then (store, none)
  else
    match (scanOldest now store).1 with
    | some k => (mapDelete store k, some k)
    | none => (store, none)

/-- The `lastUsedAt` bump on session reuse (part_001 line 563). -/
def touchSession (now : Int) (key : String) (store : Store) : Store :=
  store.map (fun p => if p.1 == key then (p.1, { p.2 with lastUsedAt := now }) else p)

/-- The session-handling block of `processRequest` (part_001 lines 559-600)
restricted to its effect on the session map: reuse bumps `lastUsedAt`; a
previously-unseen key first runs `evictLRUSession` when
`sessions.size >= SESSION_MAX`, then inserts the fresh entry. -/
def processSession (maxSessions : Nat) (now : Int) (key : String) (store : Store) : Store :=
  match store.find? (fun p => p.1 == key) with
  | some _ => touchSession now key store
  | none =>
      let st := if maxSessions ≤ store.length then (evictLRUSession now store).1 else store
      st ++ [(key, { lastUsedAt := now, createdAt := now })]

/-- The periodic session sweep (part_001 lines 289-323): collect every key
whose idle time `now - lastUsedAt` strictly exceeds the TTL, then delete each
collected key, closing its context. Returns the new store and the closed keys. -/
def sessionSweep (now ttl : Int) (store : Store) : Store × List String :=
  let toDelete := (store.filter (fun p => decide (ttl < now - p.2.lastUsedAt))).map Prod.fst
  (toDelete.foldl mapDelete store, toDelete)

/-- An observable operation on the session map, for whole-history claims. -/
inductive StoreOp
  | create (key : String) (now : Int)
  | sweep (now ttl : Int)

/-- One step of session-map history. -/
def storeStep (maxSessions : Nat) (store : Store) (op : StoreOp) : Store :=
  match op with
  | StoreOp.create k now => processSession maxSessions now k store
  | StoreOp.sweep now ttl => (sessionSweep now ttl store).1

/-- Run a session-map history from the service's initial empty map. -/
def runStore (maxSessions : Nat) (ops : List StoreOp) : Store :=
  ops.foldl (storeStep maxSessions) []

/-- State of the admission `Semaphore` (part_001 lines 206-244): the limit,
the in-use counter (a JavaScript number, modelled as an integer since
`release` decrements unconditionally), and the FIFO queue of suspended
callers identified by arrival tokens. -/
structure SemState where
  max : Nat
  current : Int
  queue : List Nat
deriving DecidableEq

/-- `new Semaphore(k)` (part_001 lines 207-211). -/
def semInit (k : Nat) : SemState := { max := k, current := 0, queue := [] }

/-- `acquire()` (part_001 lines 213-219): below the limit, increment and
return unblocked (`true`); otherwise append the caller to the wait queue and
suspend (`false`). -/
def semAcquire (st : SemState) (w : Nat) : SemState × Bool :=
  if st.current < (st.max : Int) then ({ st with current := st.current + 1 }, true)
  else ({ st with queue := st.queue ++ [w] }, false)

/-- `release()` (part_001 lines 221-228): decrement; if the queue is
non-empty, increment again, shift the head off the queue and resolve it.
Returns the woken waiter, if any. -/
def semRelease (st : SemState) : SemState × Option Nat :=
  let c := st.current - 1
  match st.queue with
  | [] => ({ st with current := c }, none)
  | w :: ws => ({ st with current := c + 1, queue := ws }, some w)

/-- An event against the semaphore: an `acquire` by caller `w` or a `release`. -/
inductive SemEvent
  | acq (w : Nat)
  | rel

/-- State effect of one semaphore event. -/
def semStep (st : SemState) (e : SemEvent) : SemState :=
  match e with
  | SemEvent.acq w => (semAcquire st w).1
  | SemEvent.rel => (semRelease st).1

/-- Run an event history against a fresh semaphore of limit `k`. -/
def semRun (k : Nat) (es : List SemEvent) : SemState :=
  es.foldl semStep (semInit k)

/-- The waiters woken by `n` consecutive `release()` calls, in order. -/
def wokenSeq : SemState → Nat → List Nat
  | _, 0 => []
  | st, n + 1 =>
      match semRelease st with
      | (st', some w) => w :: wokenSeq st' n
      | (st', none) => wokenSeq st' n

/-- The challenge-detector stub of the testable property: the `k`-th
`pageChallenged` check reports challenged exactly when `k ≤ r`. -/
def stubChallenged (r k : Nat) : Bool := decide (k ≤ r)

/-- Outcome of the challenge-resolution phase of `processRequest`. -/
structure ResolveOutcome where
  stillChallenged : Bool
  roundsTried : Nat
  reloaded : Bool
deriving DecidableEq

/-- The `for` loop of the challenge resolution (part_001 lines 732-771),
driven by the stub detector (clearance never appears, as the stub concerns
the challenge checks only). Arguments: rounds remaining, index of the next
detector check, rounds already run. Returns (still challenged, rounds run,
next check index). -/
def challengeLoop (r : Nat) : Nat → Nat → Nat → Bool × Nat × Nat
  | 0, checkIdx, roundsDone => (true, roundsDone, checkIdx)
  | remaining + 1, checkIdx, roundsDone =>
      if stubChallenged r checkIdx then
        challengeLoop r remaining (checkIdx + 1) (roundsDone + 1)
      else (false, roundsDone + 1, checkIdx + 1)

/-- The challenge-resolution phase (part_001 lines 722-783) under the stub
detector: the entry check (line 722) is check 1; each loop round performs one
further check; if the loop exhausts its rounds still challenged, exactly one
hard reload runs followed by one final re-check (lines 774-783). -/
def resolveChallenge (r maxRounds : Nat) : ResolveOutcome :=
  if stubChallenged r 1 then
    match challengeLoop r maxRounds 2 0 with
    | (true, rounds, nextIdx) =>
        { stillChallenged := stubChallenged r nextIdx, roundsTried := rounds, reloaded := true }
    | (false, rounds, _) =>
        { stillChallenged := false, roundsTried := rounds, reloaded := false }
  else { stillChallenged := false, roundsTried := 0, reloaded := false }

/-- The error taxonomy of `ErrorTypes` (part_001 lines 83-92). -/
inductive ServiceErrorCode
  | BAD_REQUEST
  | TIMEOUT
  | PAGE_ERROR
  | BROWSER_ERROR
  | INTERNAL
  | CF_CHALLENGE
  | CONTENT_NOT_READY
  | PROXY_ERROR
deriving DecidableEq

/-- The request's `minHtmlLength` field with its destructuring default of
40000 (part_001 line 487). -/
def effectiveMinHtmlLength (p : Option Nat) : Nat := p.getD 40000

/-- The final readiness decision (part_001 lines 806-825): throw
`CF_CHALLENGE` when the extracted markup is shorter than the configured
minimum AND the page is still classified as challenged; otherwise the markup
is returned as the success payload. -/
def finalReadiness (html : String) (minHtmlLength : Nat) (stillChallenged : Bool) :
    Except ServiceErrorCode String :=
  if decide (html.length < minHtmlLength) && stillChallenged then
    Except.error ServiceErrorCode.CF_CHALLENGE
  else Except.ok html

/-- Where the request's context came from; ground truth tracked alongside the
source's `fromPool` boolean to verify the flag threading. -/
inductive CtxSource
  | noCtx
  | pooled
  | sessionCtx
deriving DecidableEq

/-- The resource-relevant state of one `/solve` request: the mutable
`context`, `page`, `fromPool` variables of part_001 lines 540-543, plus
whether the semaphore slot step has run. -/
structure SolveState where
  slotAcquired : Bool
  ctx : CtxSource
  fromPool : Bool
  pageOpen : Bool
deriving DecidableEq

/-- Variable state at the top of the handler (part_001 lines 540-543):
`context = null`, `page = null`, `fromPool = false`. -/
def initSolveState : SolveState :=
  { slotAcquired := false, ctx := CtxSource.noCtx, fromPool := false, pageOpen := false }

/-- The steps of `processRequest` (part_001 lines 555-883) that assign the
resource variables; every step after the first can fail, and the
request-level timeout can fire between any two of them. -/
inductive SolveStep
  | acquireSlot
  | reuseSessionCtx
  | createSessionCtx
  | acquirePoolCtx
  | openPage
  | configurePage
  | navigateAndExtract

/-- The step sequence of `processRequest` for each branch: session reuse
(lines 562-568), session creation (lines 569-600), or pool acquisition
(lines 603-606), followed by page opening, configuration, and
navigation/extraction. -/
def solveSteps (hasSession existing : Bool) : List SolveStep :=
  [SolveStep.acquireSlot] ++
    (if hasSession then
      (if existing then [SolveStep.reuseSessionCtx] else [SolveStep.createSessionCtx])
     else [SolveStep.acquirePoolCtx]) ++
    [SolveStep.openPage, SolveStep.configurePage, SolveStep.navigateAndExtract]

/-- Variable assignments of each completed step, exactly as the source
performs them: session branches leave `fromPool` false (line 602), the pool
branch sets it true (line 605), `newPage` assigns `page` (line 609). -/
def applyStep (s : SolveState) (st : SolveStep) : SolveState :=
  match st with
  | SolveStep.acquireSlot => { s with slotAcquired := true }
  | SolveStep.reuseSessionCtx => { s with ctx := CtxSource.sessionCtx, fromPool := false }
  | SolveStep.createSessionCtx => { s with ctx := CtxSource.sessionCtx, fromPool := false }
  | SolveStep.acquirePoolCtx => { s with ctx := CtxSource.pooled, fromPool := true }
  | SolveStep.openPage => { s with pageOpen := true }
  | SolveStep.configurePage => s
  | SolveStep.navigateAndExtract => s

/-- Variable state on a terminal path where exactly the first `n` steps
completed: `n = length` is the success path; a step throwing, or the
request-level timeout settling the race first, leaves exactly the effects of
the completed prefix (each assignment is synchronous after its await). -/
def stateAfter (hasSession existing : Bool) (n : Nat) : SolveState :=
  ((solveSteps hasSession existing).take n).foldl applyStep initSolveState

/-- The cleanup actions a run of the finally block performs. -/
structure Cleanup where
  closedPage : Bool
  releasedToPool : Bool
  releasedSlot : Bool
deriving DecidableEq

/-- The finally block of the `/solve` handler (part_001 lines 960-972):
`if (page) page.close()`, `if (fromPool && context) contextPool.release(context)`,
`semaphore.release()` unconditionally. -/
def finallyBlock (s : SolveState) : Cleanup :=
  { closedPage := s.pageOpen
  , releasedToPool := s.fromPool && decide (s.ctx ≠ CtxSource.noCtx)
  , releasedSlot := true }

/-- The `fromPool` boolean agrees with the ground-truth context source. -/
def ctxFlagInv (s : SolveState) : Prop :=
  s.fromPool = true ↔ s.ctx = CtxSource.pooled

theorem applyStep_ctxFlagInv (s : SolveState) (st : SolveStep) (h : ctxFlagInv s) :
    ctxFlagInv (applyStep s st) := by
  cases st <;> simp [applyStep, ctxFlagInv] at h ⊢ <;> try exact h

theorem foldl_ctxFlagInv (l : List SolveStep) (s : SolveState) (h : ctxFlagInv s) :
    ctxFlagInv (l.foldl applyStep s) := by
  induction l generalizing s with
  | nil => exact h
  | cons a t ih => exact ih _ (applyStep_ctxFlagInv s a h)

/-- Claim C1: for every `/solve` request past input validation, on every
terminal path (success, thrown error, or request-level timeout settling the
race first — i.e. every completed step prefix of every branch), the finally
block closes the page exactly when one was opened, returns the context to
the pool exactly when it was acquired from the pool (never when it is a
session's context), and always invokes the admission-slot release. -/
theorem solve_cleanup_unconditional (hasSession existing : Bool) (n : Nat) :
    (finallyBlock (stateAfter hasSession existing n)).releasedSlot = true ∧
    (finallyBlock (stateAfter hasSession existing n)).closedPage =
      (stateAfter hasSession existing n).pageOpen ∧
    ((finallyBlock (stateAfter hasSession existing n)).releasedToPool = true ↔
      (stateAfter hasSession existing n).ctx = CtxSource.pooled) ∧
    ((stateAfter hasSession existing n).ctx = CtxSource.sessionCtx →
      (finallyBlock (stateAfter hasSession existing n)).releasedToPool = false) := by
  have hinv : ctxFlagInv (stateAfter hasSession existing n) :=
    foldl_ctxFlagInv _ _ (by simp [initSolveState, ctxFlagInv])
  refine ⟨rfl, rfl, ?_, ?_⟩
  · simp only [finallyBlock, Bool.and_eq_true, decide_eq_true_eq]
    constructor
    · rintro ⟨hfp, _⟩
      exact hinv.mp hfp
    · intro hc
      refine ⟨hinv.mpr hc, ?_⟩
      rw [hc]
      simp
  · intro hsc
    have hfp : (stateAfter hasSession existing n).fromPool = false := by
      cases hfp : (stateAfter hasSession existing n).fromPool
      · rfl
      · have := hinv.mp hfp
        rw [hsc] at this
        exact absurd this (by simp)
    simp [finallyBlock, hfp]

/-- Witness for C1 at a concrete terminal path: session-reuse branch,
timeout firing after the context was taken but before the page opened; the
context is not returned to the pool, and the slot release still runs. -/
theorem solve_cleanup_unconditional_witness :
    (finallyBlock (stateAfter true true 2)).releasedToPool = false ∧
    (finallyBlock (stateAfter true true 2)).releasedSlot = true :=
  ⟨(solve_cleanup_unconditional true true 2).2.2.2 (by decide),
   (solve_cleanup_unconditional true true 2).1⟩

/-- Claim C8: after content extraction the request fails with the challenge
error exactly when the markup is shorter than the configured minimum AND the
page is still classified as challenged; in every other combination the
markup is returned as the success payload; the threshold is the request's
`minHtmlLength` parameter (default 40000), not a hardcoded constant. -/
theorem readiness_decision (html : String) (minLen : Nat) (still : Bool) :
    (finalReadiness html minLen still = Except.error ServiceErrorCode.CF_CHALLENGE ↔
      (html.length < minLen ∧ still = true)) ∧
    (finalReadiness html minLen still = Except.ok html ↔
      ¬ (html.length < minLen ∧ still = true)) ∧
    (∀ n : Nat, effectiveMinHtmlLength (some n) = n) := by
  refine ⟨?_, ?_, fun _ => rfl⟩ <;>
    rcases Nat.lt_or_ge html.length minLen with h | h <;>
      cases still <;>
        simp [finalReadiness, h, Nat.not_lt.mpr h, Nat.lt_irrefl]

/-- Claim C4 (code bug evaluation): with the store at capacity SESSION_MAX=2
and both entries last used at the very millisecond the eviction runs
(`lastUsedAt = now = 100`), the strict-`<` scan seeded with `Date.now()`
finds no candidate and `evictLRUSession` removes nothing at all, instead of
removing one least-recently-used entry. -/
theorem evictLRU_noop_at_clock_tie :
    evictLRUSession 100
      [("a", { lastUsedAt := 100, createdAt := 100 }),
       ("b", { lastUsedAt := 100, createdAt := 100 })] =
    ([("a", { lastUsedAt := 100, createdAt := 100 }),
      ("b", { lastUsedAt := 100, createdAt := 100 })], none) := by
  rfl

/-- In the ordinary case — some entry strictly older than the eviction-time
clock — the eviction does remove the entry with the smallest `lastUsedAt`,
which is the behaviour the source clearly intends. -/
theorem evictLRU_removes_oldest_normal :
    evictLRUSession 200
      [("a", { lastUsedAt := 100, createdAt := 0 }),
       ("b", { lastUsedAt := 50, createdAt := 0 })] =
    ([("a", { lastUsedAt := 100, createdAt := 0 })], some "b") := by
  rfl

/-- Claim C5 (code bug evaluation): with SESSION_MAX = 1, creating session
key a at t=100 and then the previously-unseen key b in the same millisecond
triggers an eviction that removes nothing (all entries carry the current
timestamp), after which insertion proceeds: the store reaches 2 entries,
exceeding the configured maximum of 1. -/
theorem session_store_overflow :
    (runStore 1 [StoreOp.create "a" 100, StoreOp.create "b" 100]).length = 2 := by
  rfl

theorem semStep_max (st : SemState) (e : SemEvent) : (semStep st e).max = st.max := by
  obtain ⟨m, c, q⟩ := st
  cases e with
  | acq w => by_cases h : c < (m : Int) <;> simp [semStep, semAcquire, h]
  | rel => cases q <;> simp [semStep, semRelease]

theorem semStep_current_le (st : SemState) (e : SemEvent)
    (h : st.current ≤ (st.max : Int)) :
    (semStep st e).current ≤ ((semStep st e).max : Int) := by
  obtain ⟨m, c, q⟩ := st
  dsimp only at h
  cases e with
  | acq w =>
      by_cases hlt : c < (m : Int) <;> simp [semStep, semAcquire, hlt] <;> omega
  | rel =>
      cases q <;> simp [semStep, semRelease] <;> omega

theorem semFoldl_max (es : List SemEvent) (st : SemState) :
    (es.foldl semStep st).max = st.max := by
  induction es generalizing st with
  | nil => rfl
  | cons e t ih => rw [List.foldl_cons, ih, semStep_max]

theorem semFoldl_current_le (es : List SemEvent) (st : SemState)
    (h : st.current ≤ (st.max : Int)) :
    (es.foldl semStep st).current ≤ ((es.foldl semStep st).max : Int) := by
  induction es generalizing st with
  | nil => exact h
  | cons e t ih => exact ih _ (semStep_current_le st e h)

/-- Claim C2: for the admission semaphore with any limit k and any event
history from the fresh state, the in-use counter never exceeds k; `acquire`
increments and returns unblocked immediately when the counter is below the
limit, and otherwise appends the caller to the wait queue without
incrementing, so at most k callers hold slots simultaneously. -/
theorem admission_gate_bounded (k : Nat) (es : List SemEvent) :
    (semRun k es).current ≤ (k : Int) ∧
    (∀ (m : Nat) (c : Int) (q : List Nat) (w : Nat), c < (m : Int) →
      semAcquire ⟨m, c, q⟩ w = (⟨m, c + 1, q⟩, true)) ∧
    (∀ (m : Nat) (c : Int) (q : List Nat) (w : Nat), ¬ c < (m : Int) →
      semAcquire ⟨m, c, q⟩ w = (⟨m, c, q ++ [w]⟩, false)) := by
  refine ⟨?_, ?_, ?_⟩
  · have h := semFoldl_current_le es (semInit k) (by simp [semInit])
    rwa [semFoldl_max es (semInit k)] at h
  · intro m c q w hlt
    simp [semAcquire, hlt]
  · intro m c q w hlt
    simp [semAcquire, hlt]

/-- Witness for C2: limit 2 with three acquires stays within the bound, an
acquire below the limit increments and unblocks, and an acquire at the limit
enqueues without incrementing. -/
theorem admission_gate_bounded_witness :
    (semRun 2 [SemEvent.acq 0, SemEvent.acq 1, SemEvent.acq 2]).current ≤ (2 : Int) ∧
    semAcquire ⟨2, 0, []⟩ 5 = (⟨2, 0 + 1, []⟩, true) ∧
    semAcquire ⟨2, 2, []⟩ 9 = (⟨2, 2, [] ++ [9]⟩, false) :=
  ⟨(admission_gate_bounded 2 [SemEvent.acq 0, SemEvent.acq 1, SemEvent.acq 2]).1,
   (admission_gate_bounded 2 []).2.1 2 0 [] 5 (by decide),
   (admission_gate_bounded 2 []).2.2 2 2 [] 9 (by decide)⟩

theorem wokenSeq_take (st : SemState) (n : Nat) : wokenSeq st n = st.queue.take n := by
  induction n generalizing st with
  | zero => simp [wokenSeq]
  | succ n ih =>
      obtain ⟨m, c, q⟩ := st
      cases q with
      | nil => simp [wokenSeq, semRelease, ih]
      | cons w ws => simp [wokenSeq, semRelease, ih]

/-- Claim C3: `release()` on a non-empty wait queue leaves the in-use count
net unchanged (decrement then re-increment) and wakes exactly the head of the
queue, handing the slot off directly; on an empty queue it only decrements;
consequently n consecutive releases wake precisely the first n waiters in
arrival (FIFO) order, one per release. -/
theorem release_handoff_fifo :
    (∀ (m : Nat) (c : Int) (w : Nat) (ws : List Nat),
      semRelease ⟨m, c, w :: ws⟩ = (⟨m, c, ws⟩, some w)) ∧
    (∀ (m : Nat) (c : Int), semRelease ⟨m, c, []⟩ = (⟨m, c - 1, []⟩, none)) ∧
    (∀ (st : SemState) (n : Nat), wokenSeq st n = st.queue.take n) := by
  refine ⟨?_, fun m c => rfl, wokenSeq_take⟩
  intro m c w ws
  have hc : c - 1 + 1 = c := by omega
  simp [semRelease, hc]

theorem foldl_mapDelete (ks : List String) (store : Store) :
    ks.foldl mapDelete store = store.filter (fun p => decide (¬ p.1 ∈ ks)) := by
  induction ks generalizing store with
  | nil => simp
  | cons k t ih =>
      rw [List.foldl_cons, ih]
      unfold mapDelete
      rw [List.filter_filter]
      apply List.filter_congr
      intro p _
      simp only [List.mem_cons, not_or, decide_not, Bool.decide_and, Bool.not_eq_true,
        decide_eq_false_iff_not, Bool.and_comm, ne_eq]

theorem eq_of_mem_of_fst_eq {store : Store} (hnd : (store.map Prod.fst).Nodup)
    {p q : String × SessionEntry} (hp : p ∈ store) (hq : q ∈ store) (hfst : p.1 = q.1) :
    p = q := by
  induction store with
  | nil => cases hp
  | cons a t ih =>
      rw [List.map_cons, List.nodup_cons] at hnd
      rcases List.mem_cons.mp hp with rfl | hp'
      · rcases List.mem_cons.mp hq with rfl | hq'
        · rfl
        · exact absurd (hfst ▸ List.mem_map_of_mem Prod.fst hq') hnd.1
      · rcases List.mem_cons.mp hq with rfl | hq'
        · exact absurd (hfst ▸ List.mem_map_of_mem Prod.fst hp') hnd.1
        · exact ih hnd.2 hp' hq'

theorem mem_toDelete_iff (now ttl : Int) (store : Store)
    (hnd : (store.map Prod.fst).Nodup) {p : String × SessionEntry} (hp : p ∈ store) :
    (p.1 ∈ (store.filter (fun q => decide (ttl < now - q.2.lastUsedAt))).map Prod.fst ↔
      ttl < now - p.2.lastUsedAt) := by
  constructor
  · intro hmem
    rcases List.mem_map.mp hmem with ⟨q, hq, hq1⟩
    rcases List.mem_filter.mp hq with ⟨hqs, hqe⟩
    have hqp : q = p := eq_of_mem_of_fst_eq hnd hqs hp hq1
    subst hqp
    simpa using hqe
  · intro hexp
    exact List.mem_map_of_mem Prod.fst (List.mem_filter.mpr ⟨hp, by simpa using hexp⟩)

/-- Claim C6: one run of the periodic session sweep removes exactly the
entries whose idle time `now - lastUsedAt` (measured from last use, the
sliding window) strictly exceeds the TTL — those are the keys whose contexts
it closes — and the surviving store is the original list filtered to the
non-expired entries, each kept verbatim in order (completely untouched). -/
theorem sweep_exact (now ttl : Int) (store : Store)
    (hnd : (store.map Prod.fst).Nodup) :
    (sessionSweep now ttl store).1 =
      store.filter (fun p => decide (now - p.2.lastUsedAt ≤ ttl)) ∧
    (sessionSweep now ttl store).2 =
      (store.filter (fun p => decide (ttl < now - p.2.lastUsedAt))).map Prod.fst ∧
    (∀ p ∈ store,
      (p ∈ (sessionSweep now ttl store).1 ↔ now - p.2.lastUsedAt ≤ ttl)) := by
  have h1 : (sessionSweep now ttl store).1 =
      store.filter (fun p => decide (now - p.2.lastUsedAt ≤ ttl)) := by
    have hd : (sessionSweep now ttl store).1 =
        ((store.filter (fun q => decide (ttl < now - q.2.lastUsedAt))).map Prod.fst).foldl
          mapDelete store := rfl
    rw [hd, foldl_mapDelete]
    apply List.filter_congr
    intro p hp
    rw [decide_eq_decide]
    rw [mem_toDelete_iff now ttl store hnd hp]
    omega
  refine ⟨h1, rfl, ?_⟩
  intro p hp
  rw [h1, List.mem_filter]
  simp [hp]

/-- Witness for C6 at a concrete two-entry store: the entry idle for 90ms
(TTL 50) is removed and its context closed; the entry idle for 10ms is kept
verbatim. -/
theorem sweep_exact_witness :
    (sessionSweep 100 50 [("a", { lastUsedAt := 10, createdAt := 0 }),
                          ("b", { lastUsedAt := 90, createdAt := 0 })]).1 =
      [("b", { lastUsedAt := 90, createdAt := 0 })] ∧
    (sessionSweep 100 50 [("a", { lastUsedAt := 10, createdAt := 0 }),
                          ("b", { lastUsedAt := 90, createdAt := 0 })]).2 = ["a"] :=
  ⟨((sweep_exact 100 50 [("a", { lastUsedAt := 10, createdAt := 0 }),
      ("b", { lastUsedAt := 90, createdAt := 0 })] (by decide)).1).trans (by rfl),
   ((sweep_exact 100 50 [("a", { lastUsedAt := 10, createdAt := 0 }),
      ("b", { lastUsedAt := 90, createdAt := 0 })] (by decide)).2.1).trans (by rfl)⟩

theorem challengeLoop_exhaust (r : Nat) :
    ∀ (rem idx rd : Nat), idx + rem ≤ r + 1 →
      challengeLoop r rem idx rd = (true, rd + rem, idx + rem) := by
  intro rem
  induction rem with
  | zero => intro idx rd _; simp [challengeLoop]
  | succ n ih =>
      intro idx rd h
      have hstub : stubChallenged r idx = true := decide_eq_true (by omega)
      have hB : rd + 1 + n = rd + (n + 1) := by omega
      have hC : idx + 1 + n = idx + (n + 1) := by omega
      simp only [challengeLoop, hstub, if_true]
      rw [ih (idx + 1) (rd + 1) (by omega), hB, hC]

theorem challengeLoop_clear (r : Nat) :
    ∀ (rem idx rd : Nat), idx ≤ r + 1 → r + 2 ≤ idx + rem →
      challengeLoop r rem idx rd = (false, rd + (r + 2 - idx), r + 2) := by
  intro rem
  induction rem with
  | zero => intro idx rd h1 h2; omega
  | succ n ih =>
      intro idx rd h1 h2
      by_cases hidx : idx ≤ r
      · have hstub : stubChallenged r idx = true := decide_eq_true hidx
        have hB : rd + 1 + (r + 2 - (idx + 1)) = rd + (r + 2 - idx) := by omega
        simp only [challengeLoop, hstub, if_true]
        rw [ih (idx + 1) (rd + 1) (by omega) (by omega), hB]
      · have hstub : stubChallenged r idx = false := decide_eq_false hidx
        have hidx1 : idx = r + 1 := by omega
        simp only [challengeLoop, hstub, Bool.false_eq_true, if_false]
        rw [hidx1]
        have hB : rd + 1 = rd + (r + 2 - (r + 1)) := by omega
        rw [hB]

/-- Claim C7 (amended): under the stub detector (challenged for the first r
checks, cleared afterward, clearance cookie never present), resolving with
maxRounds >= r yields cleared with no reload; the loop never runs more than
maxRounds rounds; when the loop exhausts its rounds still challenged
(exactly when maxRounds < r) one hard reload plus one final re-check
follows, so stillChallenged results only when maxRounds <= r - 2, while
maxRounds = r - 1 ends cleared via that final re-check. -/
theorem challenge_resolution_amended (r m : Nat) :
    ((resolveChallenge r m).stillChallenged = true ↔ m + 2 ≤ r) ∧
    ((resolveChallenge r m).reloaded = true ↔ m + 1 ≤ r) ∧
    (resolveChallenge r m).roundsTried ≤ m := by
  by_cases hr : 1 ≤ r
  · have hstub1 : stubChallenged r 1 = true := by simp [stubChallenged]; omega
    by_cases hm : r ≤ m
    · have hloop := challengeLoop_clear r m 2 0 (by omega) (by omega)
      rw [resolveChallenge, if_pos hstub1, hloop]
      refine ⟨by simp; omega, by simp; omega, by simp; omega⟩
    · have hloop := challengeLoop_exhaust r m 2 0 (by omega)
      rw [resolveChallenge, if_pos hstub1, hloop]
      refine ⟨?_, ?_, ?_⟩
      · simp [stubChallenged]
        omega
      · simp
        omega
      · simp
  · have hstub1 : stubChallenged r 1 = false := by
      simp [stubChallenged]; omega
    rw [resolveChallenge, if_neg (by simp [hstub1])]
    refine ⟨by simp; omega, by simp; omega, by simp⟩

/-- Claim C7 counterexample: with the stub challenged for the first r = 2
checks and maxRounds = 1 < r, resolution does NOT end stillChallenged — the
post-loop hard reload's final re-check is the third detector check and
clears — refuting that maxRounds < r always yields stillChallenged. -/
theorem challenge_resolution_counterexample :
    1 < 2 ∧ (resolveChallenge 2 1).stillChallenged = false := by
  decide

/-- Claim C9: the detection helpers are total at the public interface — for
every outcome of the underlying title read, body-text evaluation and cookie
enumeration they return a boolean and never propagate an exception; a
failing primitive is absorbed (empty string / `false`): when the reads
`pageChallenged` depends on both fail it returns false (not challenged), and
when the cookie enumeration fails `hasCfClearance` returns false (no
clearance). -/
theorem detectors_absorb_failures (po : PageOracle) (co : CtxOracle) :
    (∃ b, pageChallenged po = Except.ok b) ∧
    (∃ b, hasCfClearance co = Except.ok b) ∧
    ((∃ e, po.titleRes = Except.error e) → (∃ e, po.bodyTextRes = Except.error e) →
      pageChallenged po = Except.ok false) ∧
    ((∃ e, co.cookiesRes = Except.error e) → hasCfClearance co = Except.ok false) := by
  obtain ⟨t, b⟩ := po
  obtain ⟨cs⟩ := co
  refine ⟨⟨_, rfl⟩, ?_, ?_, ?_⟩
  · cases cs with
    | ok l => exact ⟨_, rfl⟩
    | error e => exact ⟨_, rfl⟩
  · rintro ⟨e1, he1⟩ ⟨e2, he2⟩
    dsimp only at he1 he2
    subst he1
    subst he2
    have hm : challengeRegexTest " " = false := by decide
    simp [pageChallenged, hm]
  · rintro ⟨e, he⟩
    dsimp only at he
    subst he
    rfl

/-- Witness for C9: concrete failing primitives — title read and body
evaluation both throwing, and a cookie enumeration throwing — yield
`ok false` from both helpers, with no exception escaping. -/
theorem detectors_absorb_failures_witness :
    pageChallenged ⟨Except.error "boom", Except.error "gone"⟩ = Except.ok false ∧
    hasCfClearance ⟨Except.error "closed"⟩ = Except.ok false :=
  ⟨(detectors_absorb_failures ⟨Except.error "boom", Except.error "gone"⟩
      ⟨Except.error "closed"⟩).2.2.1 ⟨"boom", rfl⟩ ⟨"gone", rfl⟩,
   (detectors_absorb_failures ⟨Except.error "boom", Except.error "gone"⟩
      ⟨Except.error "closed"⟩).2.2.2 ⟨"closed", rfl⟩⟩

/-- Claim C10: when `challengeMode` is true or the parsed hostname matches
the hardening pattern (substring `partsouq.com`, `cloudflare` or `cf`,
case-insensitively), asset blocking is forced off regardless of the caller's
`blockAssets`; otherwise the caller's `blockAssets` (default true) is
honored verbatim. -/
theorem asset_blocking_override (host : Option String) (cm : Bool) (ba : Option Bool) :
    ((cm = true ∨ ∃ h, host = some h ∧ hostnameCfMatch h = true) →
      effectiveBlockAssets host cm ba = false) ∧
    ((cm = false ∧ ∀ h, host = some h → hostnameCfMatch h = false) →
      effectiveBlockAssets host cm ba = ba.getD true) := by
  constructor
  · rintro (hcm | ⟨h, rfl, hmatch⟩)
    · simp [effectiveBlockAssets, needsCfHardening, hcm]
    · cases cm <;> simp [effectiveBlockAssets, needsCfHardening, hmatch]
  · rintro ⟨hcm, hh⟩
    subst hcm
    cases host with
    | none => simp [effectiveBlockAssets, needsCfHardening]
    | some h => simp [effectiveBlockAssets, needsCfHardening, hh h rfl]

/-- Witness for C10: a Cloudflare-matching hostname forces blocking off even
though the caller asked for it, and a non-matching hostname with
`challengeMode` false gets the caller's `blockAssets = false` honored. -/
theorem asset_blocking_override_witness :
    effectiveBlockAssets (some "cf.io") false (some true) = false ∧
    effectiveBlockAssets (some "x.org") false (some false) = false :=
  ⟨(asset_blocking_override (some "cf.io") false (some true)).1
      (Or.inr ⟨"cf.io", rfl, by decide⟩),
   (asset_blocking_override (some "x.org") false (some false)).2
      ⟨rfl, fun h hh => by cases hh; decide⟩⟩

end Scraper
